import Mathlib

/-!
Verification of the earthquake dashboard's fetch/cache/summary service
(src/src/app/services/earthquake.service.ts) against its specification.

The TypeScript service is shallowly embedded below:
* JS numbers used as integers (timestamps, sizes, counts) become Int/Nat;
  earthquake magnitudes (floats compared with <, <=, ===) become Rat.
* A JS Map is embedded as an insertion-ordered association list: set
  updates in place or appends, delete removes the keyed entry, entries
  iterate in insertion order.
* Calendar dates: the service handles days through date-fns (parseISO,
  format "yyyy-MM-dd", differenceInDays, addDays).  ISO calendar dates are
  in bijection with day indices, so the embedding represents a calendar
  day as an Int day index: parseISO is the identity, differenceInDays is
  subtraction, addDays is addition, and formatting an epoch-millisecond
  timestamp to its "yyyy-MM-dd" day is floor division by 86400000 (the
  time-zone offset is irrelevant to every property proved here).
* estimateObjectSize computes JSON.stringify(data).length * 2, which
  depends on the serializer; it is passed to the cache operations as an
  explicit size-estimation function, mirroring its use at a single point
  inside addToCache.
-/

namespace EarthquakeApp

/-- Embedding of the fields of EarthquakeFeature.properties that the
service reads (properties.mag and properties.time); the remaining USGS
metadata fields are never inspected by the service and are omitted. -/
structure EqProperties where
  mag : Rat
  time : Int
  deriving DecidableEq, Repr

/-- One earthquake record (a GeoJSON feature).  The service reads only
its properties; the id is kept so that distinct records with equal
magnitudes can be told apart. -/
structure EarthquakeFeature where
  properties : EqProperties
  id : String
  deriving DecidableEq, Repr

/-- Embedding of EarthquakeResponse: the service only ever reads the
features array of the response it caches and processes. -/
structure EarthquakeResponse where
  features : List EarthquakeFeature
  deriving DecidableEq, Repr

/-- Embedding of EarthquakeFilters.  startTime and endTime are ISO
calendar dates, represented by their day index (see the file header);
the optional numeric fields are Options. -/
structure EarthquakeFilters where
  startTime : Int
  endTime : Int
  minMagnitude : Rat
  maxMagnitude : Option Rat
  minLatitude : Option Rat
  maxLatitude : Option Rat
  minLongitude : Option Rat
  maxLongitude : Option Rat
  limit : Nat
  offset : Int
  deriving DecidableEq, Repr

/-- Embedding of EarthquakeSummary.  frequencyPerDay keys are day
indices (standing for "yyyy-MM-dd" strings). -/
structure EarthquakeSummary where
  count : Nat
  averageMagnitude : Rat
  strongestEarthquake : Option EarthquakeFeature
  frequencyPerDay : List (Int × Nat)
  magnitudeDistribution : List (String × Nat)
  deriving DecidableEq, Repr

/-! ## JS Map embedding (insertion-ordered association list) -/

/-- JS Map.prototype.set: update the entry in place if the key is
present, otherwise append at the end (insertion order preserved). -/
def mapSet {κ α : Type} [DecidableEq κ] : List (κ × α) → κ → α → List (κ × α)
  | [], k, v => [(k, v)]
  | (k', v') :: rest, k, v =>
      if k' = k then (k, v) :: rest else (k', v') :: mapSet rest k v

/-- JS Map.prototype.get (undefined becomes none). -/
def mapLookup {κ α : Type} [DecidableEq κ] : List (κ × α) → κ → Option α
  | [], _ => none
  | (k', v') :: rest, k => if k' = k then some v' else mapLookup rest k

/-- JS Map.prototype.delete: removes the entry with the key (JS Map keys
are unique, so filtering by key is exact). -/
def mapDelete {κ α : Type} [DecidableEq κ] (m : List (κ × α)) (k : κ) : List (κ × α) :=
  m.filter (fun p => decide (p.1 ≠ k))

/-! ## Cache state and operations -/

/-- One cache entry: the raw payload, its insertion timestamp (epoch
milliseconds) and its estimated size in bytes. -/
structure CacheEntry where
  data : EarthquakeResponse
  timestamp : Int
  size : Nat
  deriving DecidableEq, Repr

/-- The service's cache fields: the Map and the running byte total
currentCacheSize (a JS number, mutated by += and -=, hence Int). -/
structure CacheSt where
  cache : List (String × CacheEntry)
  currentCacheSize : Int
  deriving DecidableEq, Repr

/-- CACHE_DURATION = 30 * 60 * 1000 milliseconds (30 minutes). -/
def CACHE_DURATION : Int := 30 * 60 * 1000

/-- MAX_CACHE_SIZE = 50 * 1024 * 1024 bytes (50MB). -/
def MAX_CACHE_SIZE : Int := 50 * 1024 * 1024

/-- MAX_CACHE_SIZE * 0.8, the eviction target of cleanupCache; the
float product 52428800 * 0.8 is exactly 41943040. -/
def EVICT_TARGET : Int := 41943040

/-- The expiry test now - entry.timestamp > CACHE_DURATION used by both
cleanupCache and getFromCache. -/
def isExpired (now : Int) (e : CacheEntry) : Bool :=
  decide (now - e.timestamp > CACHE_DURATION)

/-- First loop of cleanupCache: delete every expired entry and subtract
its size from currentCacheSize. -/
def purgeExpired (now : Int) (s : CacheSt) : CacheSt :=
  { cache := s.cache.filter (fun p => ! isExpired now p.2),
    currentCacheSize := s.currentCacheSize -
      ((s.cache.filter (fun p => isExpired now p.2)).map (fun p => (p.2.size : Int))).sum }

/-- Second loop of cleanupCache: walk the entries sorted by ascending
timestamp, deleting each and subtracting its size, stopping as soon as
currentCacheSize has fallen to 80 percent of MAX_CACHE_SIZE. -/
def evictOldest : List (String × CacheEntry) → CacheSt → CacheSt
  | [], s => s
  | (k, e) :: rest, s =>
      if s.currentCacheSize - (e.size : Int) ≤ EVICT_TARGET then
        { cache := mapDelete s.cache k,
          currentCacheSize := s.currentCacheSize - (e.size : Int) }
      else
        evictOldest rest
          { cache := mapDelete s.cache k,
            currentCacheSize := s.currentCacheSize - (e.size : Int) }

/-- The timestamp order used by cleanupCache's sort comparator
(a, b) => a[1].timestamp - b[1].timestamp; Array.prototype.sort is
stable, as is insertion sort. -/
def timestampLE (a b : String × CacheEntry) : Prop :=
  a.2.timestamp ≤ b.2.timestamp

instance : DecidableRel timestampLE := fun a b =>
  inferInstanceAs (Decidable (a.2.timestamp ≤ b.2.timestamp))

/-- cleanupCache: remove expired entries; then, if the cache is still
larger than MAX_CACHE_SIZE, remove entries oldest-timestamp-first until
the size is at most 80 percent of MAX_CACHE_SIZE. -/
def cleanupCache (now : Int) (s : CacheSt) : CacheSt :=
  let s1 := purgeExpired now s
  if s1.currentCacheSize > MAX_CACHE_SIZE then
    evictOldest (s1.cache.insertionSort timestampLE) s1
  else s1

/-- getFromCache: a present, unexpired entry is a hit; an entry whose
age strictly exceeds CACHE_DURATION is deleted (size subtracted) and
reported as a miss.  Returns the optional payload and the new state. -/
def getFromCache (key : String) (now : Int) (s : CacheSt) :
    Option EarthquakeResponse × CacheSt :=
  match mapLookup s.cache key with
  | none => (none, s)
  | some c =>
      if now - c.timestamp > CACHE_DURATION then
        (none, { cache := mapDelete s.cache key,
                 currentCacheSize := s.currentCacheSize - (c.size : Int) })
      else (some c.data, s)

/-- addToCache: estimate the payload size with the serializer-dependent
function sz (JSON.stringify(data).length * 2 in the source); if
admitting it would push currentCacheSize over MAX_CACHE_SIZE, run
cleanupCache, and if it still would, skip caching; otherwise store the
entry and add its size. -/
def addToCache (sz : EarthquakeResponse → Nat) (key : String)
    (data : EarthquakeResponse) (now : Int) (s : CacheSt) : CacheSt :=
  let size := sz data
  if s.currentCacheSize + (size : Int) > MAX_CACHE_SIZE then
    let s' := cleanupCache now s
    if s'.currentCacheSize + (size : Int) > MAX_CACHE_SIZE then s'
    else { cache := mapSet s'.cache key ⟨data, now, size⟩,
           currentCacheSize := s'.currentCacheSize + (size : Int) }
  else { cache := mapSet s.cache key ⟨data, now, size⟩,
         currentCacheSize := s.currentCacheSize + (size : Int) }

/-! ## Summary derivation (generateSummary) -/

/-- The reduce step of the strongest-earthquake computation:
strongest.properties.mag > current.properties.mag ? strongest : current.
Array.prototype.reduce without an initial value starts from the first
element, so the whole reduce is a left fold over the tail. -/
def strongestFold (q : EarthquakeFeature) (qs : List EarthquakeFeature) :
    EarthquakeFeature :=
  qs.foldl
    (fun strongest current =>
      if strongest.properties.mag > current.properties.mag then strongest
      else current) q

/-- totalMagnitude / earthquakes.length, as in generateSummary (only
reached on non-empty input). -/
def averageMagnitude (qs : List EarthquakeFeature) : Rat :=
  qs.foldl (fun sum eq => sum + eq.properties.mag) 0 / (qs.length : Rat)

/-- The "yyyy-MM-dd" day key of an epoch-millisecond timestamp,
represented as a day index (see the file header). -/
def dayOfTime (t : Int) : Int := Int.fdiv t 86400000

/-- The seeding loop for (let i = 0; i <= daysDiff; i += sampleInterval):
the day keys startDay, startDay + interval, ... up to startDay + daysDiff.
The loop body runs floor(daysDiff / interval) + 1 times when
daysDiff >= 0 and not at all otherwise. -/
def seedDays (startDay daysDiff : Int) (interval : Nat) : List Int :=
  if 0 ≤ daysDiff then
    (List.range (daysDiff.toNat / interval + 1)).map
      (fun k => startDay + (k : Int) * (interval : Int))
  else []

/-- The frequency-per-day computation of generateSummary: seed the
sampled days of the filter's date span with zero, then for each record
increment the bucket of its own day key, creating it on demand
(dateMap.get(date) applied through the or-zero fallback). -/
def frequencyPerDay (filters : EarthquakeFilters)
    (qs : List EarthquakeFeature) : List (Int × Nat) :=
  let daysDiff := filters.endTime - filters.startTime
  let sampleInterval : Nat :=
    if daysDiff > 90 then (daysDiff.toNat + 89) / 90 else 1
  let seeded := (seedDays filters.startTime daysDiff sampleInterval).foldl
    (fun m d => mapSet m d 0) []
  qs.foldl
    (fun m eq =>
      let date := dayOfTime eq.properties.time
      mapSet m date ((mapLookup m date).getD 0 + 1)) seeded

/-- The five fixed histogram ranges (min, max, label) of
generateSummary. -/
def magnitudeRanges : List (Rat × Rat × String) :=
  [(0, 2, "0-2"), (2, 4, "2-4"), (4, 6, "4-6"), (6, 8, "6-8"), (8, 10, "8+")]

/-- The per-range filter predicate
eq.properties.mag >= range.min && (range.max === 10 || eq.properties.mag < range.max). -/
def inBucket (lo hi : Rat) (m : Rat) : Bool :=
  decide (lo ≤ m) && (decide (hi = 10) || decide (m < hi))

/-- The magnitude distribution of generateSummary: for each range the
count of records whose magnitude falls in it. -/
def magnitudeDistribution (qs : List EarthquakeFeature) : List (String × Nat) :=
  magnitudeRanges.map
    (fun r => (r.2.2, (qs.filter (fun eq => inBucket r.1 r.2.1 eq.properties.mag)).length))

/-- generateSummary as a pure function from records and filters to the
summary it publishes; on an empty record set it returns the zero/empty
summary (no error path exists). -/
def generateSummary (qs : List EarthquakeFeature)
    (filters : EarthquakeFilters) : EarthquakeSummary :=
  match qs with
  | [] =>
      { count := 0
        averageMagnitude := 0
        strongestEarthquake := none
        frequencyPerDay := []
        magnitudeDistribution := [] }
  | q :: rest =>
      { count := (q :: rest).length
        averageMagnitude := averageMagnitude (q :: rest)
        strongestEarthquake := some (strongestFold q rest)
        frequencyPerDay := frequencyPerDay filters (q :: rest)
        magnitudeDistribution := magnitudeDistribution (q :: rest) }

/-! ## HTTP request parameters (buildRequestParams) -/

/-- A query-parameter value: HttpParams stores strings; numeric values
reach it through toString, so the embedding keeps the number itself. -/
inductive ParamValue where
  | str : String → ParamValue
  | int : Int → ParamValue
  | rat : Rat → ParamValue
  deriving DecidableEq, Repr

/-- JS truthiness of an optional number: undefined and 0 are falsy
(NaN, unrepresentable in Rat, also is). -/
def truthyRat : Option Rat → Bool
  | none => false
  | some x => decide (x ≠ 0)

/-- The bounding-box guard of buildRequestParams:
filters.minLatitude && filters.maxLatitude && filters.minLongitude && filters.maxLongitude. -/
def bboxTruthy (filters : EarthquakeFilters) : Bool :=
  truthyRat filters.minLatitude && truthyRat filters.maxLatitude &&
    truthyRat filters.minLongitude && truthyRat filters.maxLongitude

/-- buildRequestParams: the fixed parameters, then maxmagnitude when
truthy, then the four bounding-box parameters when all four fields are
truthy.  HttpParams.set is the Map set (replace or append). -/
def buildRequestParams (filters : EarthquakeFilters) :
    List (String × ParamValue) :=
  let p0 := mapSet [] "format" (ParamValue.str "geojson")
  let p1 := mapSet p0 "starttime" (ParamValue.int filters.startTime)
  let p2 := mapSet p1 "endtime" (ParamValue.int filters.endTime)
  let p3 := mapSet p2 "minmagnitude" (ParamValue.rat filters.minMagnitude)
  let p4 := mapSet p3 "limit" (ParamValue.int (filters.limit : Int))
  let p5 := mapSet p4 "offset" (ParamValue.int (max filters.offset 1))
  let p6 := mapSet p5 "orderby" (ParamValue.str "time")
  let p7 :=
    if truthyRat filters.maxMagnitude then
      mapSet p6 "maxmagnitude" (ParamValue.rat (filters.maxMagnitude.getD 0))
    else p6
  if bboxTruthy filters then
    mapSet
      (mapSet
        (mapSet
          (mapSet p7 "minlatitude" (ParamValue.rat (filters.minLatitude.getD 0)))
          "maxlatitude" (ParamValue.rat (filters.maxLatitude.getD 0)))
        "minlongitude" (ParamValue.rat (filters.minLongitude.getD 0)))
      "maxlongitude" (ParamValue.rat (filters.maxLongitude.getD 0))
  else p7

/-! ## Service state machine (fetch, cancel, response arrival)

fetchEarthquakes subscribes its HTTP observable with
takeUntil(cancelSubject): once cancelSubject fires, the subscription is
complete and a later response emission is not delivered.  The embedding
gives each subscription a fresh generation number: activeGen holds the
generation of the one in-flight subscription whose takeUntil has not
fired, responses carry the generation of the request they answer, and a
response whose generation is not the active one is dropped, which is
exactly the takeUntil contract. -/

/-- The observable state of the service: the subscription bookkeeping
plus the last values of the records channel (earthquakesSubject), the
summary channel (summarySubject), the loading flag and the cache. -/
structure ServiceState where
  nextGen : Nat
  activeGen : Option Nat
  loading : Bool
  earthquakes : List EarthquakeFeature
  summary : Option EarthquakeSummary
  cacheSt : CacheSt
  deriving DecidableEq, Repr

/-- cancelCurrentRequest: cancelSubject.next() completes any in-flight
subscription (takeUntil) and loadingSubject.next(false) clears the
loading flag; the progress simulation, not modelled, also stops. -/
def cancelCurrentRequest (s : ServiceState) : ServiceState :=
  { s with activeGen := none, loading := false }

/-- fetchEarthquakes: cancel the previous request, then either serve
from the cache (publishing records and summary immediately) or start a
new HTTP subscription with a fresh generation.  serialize embeds
createCacheKey (JSON.stringify of the filters). -/
def fetchEarthquakes (serialize : EarthquakeFilters → String)
    (filters : EarthquakeFilters) (now : Int) (s : ServiceState) :
    ServiceState :=
  let s' := cancelCurrentRequest s
  match getFromCache (serialize filters) now s'.cacheSt with
  | (some resp, c') =>
      { s' with
        cacheSt := c'
        earthquakes := resp.features
        summary := some (generateSummary resp.features filters)
        loading := false }
  | (none, c') =>
      { s' with
        cacheSt := c'
        activeGen := some s'.nextGen
        nextGen := s'.nextGen + 1
        loading := true }

/-- Arrival of the HTTP response for the request of generation g: if
that subscription is still active, the subscribe callback runs
(addToCache, then the records channel and the summary channel are
updated) and the completed subscription is cleared; otherwise takeUntil
has already completed the subscription and nothing happens. -/
def responseArrives (sz : EarthquakeResponse → Nat)
    (serialize : EarthquakeFilters → String) (g : Nat)
    (filters : EarthquakeFilters) (resp : EarthquakeResponse) (now : Int)
    (s : ServiceState) : ServiceState :=
  if s.activeGen = some g then
    { s with
      cacheSt := addToCache sz (serialize filters) resp now s.cacheSt
      earthquakes := resp.features
      summary := some (generateSummary resp.features filters)
      loading := false
      activeGen := none }
  else s

/-- The service events that touch the subscription state. -/
inductive SvcOp where
  | fetchOp (filters : EarthquakeFilters) (now : Int)
  | cancelOp
  | responseOp (g : Nat) (filters : EarthquakeFilters)
      (resp : EarthquakeResponse) (now : Int)
  deriving Repr

/-- Interpretation of one service event. -/
def applySvcOp (sz : EarthquakeResponse → Nat)
    (serialize : EarthquakeFilters → String) :
    SvcOp → ServiceState → ServiceState
  | .fetchOp filters now, s => fetchEarthquakes serialize filters now s
  | .cancelOp, s => cancelCurrentRequest s
  | .responseOp g filters resp now, s =>
      responseArrives sz serialize g filters resp now s

/-- Interpretation of a sequence of service events. -/
def applySvcOps (sz : EarthquakeResponse → Nat)
    (serialize : EarthquakeFilters → String) (ops : List SvcOp)
    (s : ServiceState) : ServiceState :=
  ops.foldl (fun st op => applySvcOp sz serialize op st) s

/-! ## Concrete objects used by counterexamples and witnesses -/

/-- A filter whose values are irrelevant to the property at hand. -/
def filt0 : EarthquakeFilters := ⟨0, 0, 0, none, none, none, none, none, 10, 1⟩

/-- A record of magnitude 5 appearing first. -/
def recFirstMax : EarthquakeFeature := ⟨⟨5, 0⟩, "first"⟩

/-- A distinct record, also of magnitude 5, appearing second. -/
def recSecondMax : EarthquakeFeature := ⟨⟨5, 0⟩, "second"⟩

/-- A record with a negative magnitude (the USGS catalog contains
micro-earthquakes with negative magnitudes). -/
def recNegative : EarthquakeFeature := ⟨⟨-1, 0⟩, "negative"⟩

/-- A response payload. -/
def respEmpty : EarthquakeResponse := ⟨[]⟩

/-- A size estimate of 4 bytes for every payload. -/
def szSmall : EarthquakeResponse → Nat := fun _ => 4

/-- A size estimate of 10MB (10485760 bytes) for every payload. -/
def szTenMB : EarthquakeResponse → Nat := fun _ => 10485760

/-- A size estimate one byte over the whole 50MB budget. -/
def szOverBudget : EarthquakeResponse → Nat := fun _ => 52428801

/-- A live 45MB (47185920 bytes) cache entry inserted at time 1000. -/
def entryLive45MB : CacheEntry := ⟨respEmpty, 1000, 47185920⟩

/-- A cache holding one live 45MB entry, size tracked consistently. -/
def stLive45MB : CacheSt := ⟨[("a", entryLive45MB)], 47185920⟩

/-- A cache holding one entry of size 10 inserted at time 0. -/
def stOneEntry : CacheSt := ⟨[("k", ⟨respEmpty, 0, 10⟩)], 10⟩

/-- The empty cache with zero tracked size, the service's initial
state. -/
def emptyCacheSt : CacheSt := ⟨[], 0⟩

/-! ## Association-list lemmas -/

theorem mapLookup_mapSet_self {κ α : Type} [DecidableEq κ]
    (m : List (κ × α)) (k : κ) (v : α) :
    mapLookup (mapSet m k v) k = some v := by
  induction m with
  | nil => simp [mapSet, mapLookup]
  | cons p rest ih =>
      by_cases h : p.1 = k
      · simp [mapSet, mapLookup, h]
      · simp [mapSet, mapLookup, h, ih]

theorem mapSet_of_lookup_none {κ α : Type} [DecidableEq κ]
    {m : List (κ × α)} {k : κ} (v : α) (h : mapLookup m k = none) :
    mapSet m k v = m ++ [(k, v)] := by
  induction m with
  | nil => rfl
  | cons p rest ih =>
      by_cases hk : p.1 = k
      · simp [mapLookup, hk] at h
      · simp [mapLookup, hk] at h
        simp [mapSet, hk, ih h]

theorem mapLookup_eq_none_iff {κ α : Type} [DecidableEq κ]
    (m : List (κ × α)) (k : κ) :
    mapLookup m k = none ↔ ∀ p ∈ m, p.1 ≠ k := by
  induction m with
  | nil => simp [mapLookup]
  | cons p rest ih =>
      by_cases hk : p.1 = k
      · simp [mapLookup, hk]
      · simp [mapLookup, hk, ih]

theorem mapLookup_mem {κ α : Type} [DecidableEq κ]
    {m : List (κ × α)} {k : κ} {v : α} (h : mapLookup m k = some v) :
    (k, v) ∈ m := by
  induction m with
  | nil => simp [mapLookup] at h
  | cons p rest ih =>
      obtain ⟨pk, pv⟩ := p
      by_cases hk : pk = k
      · simp [mapLookup, hk] at h
        subst hk
        subst h
        exact List.mem_cons_self _ _
      · simp [mapLookup, hk] at h
        exact List.mem_cons_of_mem _ (ih h)

/-! ## Claim C9: empty record set yields the zero summary -/

/-- C9: for the empty list of records and any filter, generateSummary
returns a Summary with count 0, average magnitude 0, a null strongest
record, an empty per-day series and an empty magnitude distribution;
this is an ordinary Summary value (generateSummary has no error path). -/
theorem c9_empty_summary : ∀ filters : EarthquakeFilters,
    generateSummary [] filters =
      { count := 0, averageMagnitude := 0, strongestEarthquake := none,
        frequencyPerDay := [], magnitudeDistribution := [] } :=
  fun _ => rfl

/-! ## Claim C1: the strongest record on ties -/

/-- C1 counterexample: two distinct records share the maximum magnitude
5; the summary's strongest earthquake is the SECOND of them, not the
first as the claim states, because the reduce keeps the accumulator
only on a strict > comparison. -/
theorem c1_strongest_tie_counterexample :
    (generateSummary [recFirstMax, recSecondMax] filt0).strongestEarthquake =
        some recSecondMax ∧
      recSecondMax ≠ recFirstMax ∧
      recFirstMax.properties.mag = recSecondMax.properties.mag := by
  exact ⟨rfl, by decide, rfl⟩

/-! ## Claim C2: the magnitude histogram -/

/-- C2 counterexample: a single record of magnitude -1 falls into none
of the five buckets (all lower bounds are at least 0), so the histogram
counts sum to 0 while the record count is 1. -/
theorem c2_histogram_counterexample :
    (((generateSummary [recNegative] filt0).magnitudeDistribution).map
        Prod.snd).sum = 0 ∧
      (generateSummary [recNegative] filt0).count = 1 := by
  exact ⟨by decide, rfl⟩

/-! ## Claim C4: cache expiry boundary -/

/-- C4 counterexample: for an entry inserted at time 0 queried at
exactly now = CACHE_DURATION, now - insertedAt < TTL is false, yet
getFromCache still returns the payload (the code misses only on the
strict > comparison). -/
theorem c4_ttl_counterexample :
    (getFromCache "k" CACHE_DURATION stOneEntry).1 = some respEmpty ∧
      ¬(CACHE_DURATION - 0 < CACHE_DURATION) := by
  exact ⟨rfl, by decide⟩

/-! ## Claim C3: cache admission -/

/-- C3 counterexample: a live (unexpired) 45MB cache and a 10MB payload;
admission would exceed the 50MB budget, cleanupCache finds nothing
expired and does not evict (the oldest-first purge only runs when the
cache BY ITSELF is over budget), so the payload is skipped even though
it is far smaller than the entire budget. -/
theorem c3_admission_counterexample :
    addToCache szTenMB "b" respEmpty 1000 stLive45MB = stLive45MB ∧
      mapLookup (addToCache szTenMB "b" respEmpty 1000 stLive45MB).cache "b" =
        none ∧
      (szTenMB respEmpty : Int) ≤ MAX_CACHE_SIZE := by
  refine ⟨by decide, by decide, by decide⟩

/-! ## Claim C5: cache round-trip -/

/-- C5 counterexample: a payload whose estimated size exceeds the whole
budget is skipped by addToCache, so an immediate getFromCache (zero
time elapsed, well within TTL) reports a miss instead of returning the
stored payload. -/
theorem c5_roundtrip_counterexample :
    (getFromCache "k" 0
        (addToCache szOverBudget "k" respEmpty 0 emptyCacheSt)).1 = none ∧
      (0 : Int) - 0 < CACHE_DURATION := by
  exact ⟨rfl, by decide⟩

/-! ## Claim C8: bounding-box request parameters -/

/-- A filter whose four bounding-box fields are all present, with
minLatitude 0 (the equator). -/
def filtZeroLat : EarthquakeFilters :=
  ⟨0, 10, 2, none, some 0, some 10, some 20, some 30, 100, 1⟩

/-- C8 counterexample: all four bounding-box fields are present, but
because minLatitude is 0 — falsy in JS — the guard fails and none of
the four bounding-box query parameters is included in the request. -/
theorem c8_bbox_counterexample :
    mapLookup (buildRequestParams filtZeroLat) "minlatitude" = none ∧
      filtZeroLat.minLatitude.isSome = true ∧
      filtZeroLat.maxLatitude.isSome = true ∧
      filtZeroLat.minLongitude.isSome = true ∧
      filtZeroLat.maxLongitude.isSome = true := by
  refine ⟨by decide, rfl, rfl, rfl, rfl⟩

/-- C4 amended: getFromCache returns the stored payload if and only if
now minus the entry's insertion timestamp is at most (not strictly less
than) the TTL; when the age strictly exceeds the TTL the entry is
removed from the cache and a miss is reported. -/
theorem c4_ttl_amended :
    ∀ (key : String) (now : Int) (s : CacheSt) (c : CacheEntry),
      mapLookup s.cache key = some c →
      ((getFromCache key now s).1 = some c.data ↔
          now - c.timestamp ≤ CACHE_DURATION) ∧
        (CACHE_DURATION < now - c.timestamp →
          (getFromCache key now s).1 = none ∧
            (getFromCache key now s).2.cache = mapDelete s.cache key) := by
  intro key now s c h
  by_cases hexp : now - c.timestamp > CACHE_DURATION
  · simp only [getFromCache, h, if_pos hexp]
    exact ⟨iff_of_false (by simp) (by omega), fun _ => ⟨trivial, trivial⟩⟩
  · simp only [getFromCache, h, if_neg hexp]
    exact ⟨iff_of_true trivial (by omega), fun hc => absurd hc (by omega)⟩

/-- C4 amended witness: a concrete unexpired hit. -/
theorem c4_ttl_amended_witness :
    (getFromCache "k" 5 stOneEntry).1 = some respEmpty := by
  have h := c4_ttl_amended "k" 5 stOneEntry ⟨respEmpty, 0, 10⟩ rfl
  exact h.1.mpr (by decide)

/-- C5 amended: put followed by get within the TTL returns the stored
payload PROVIDED the admission check passes, that is, the tracked size
plus the payload's estimated size fits the budget either before or
after the cleanup pass; a payload failing both checks is skipped (see
the counterexample). -/
theorem c5_roundtrip_amended :
    ∀ (sz : EarthquakeResponse → Nat) (key : String)
      (data : EarthquakeResponse) (now now' : Int) (s : CacheSt),
      (s.currentCacheSize + (sz data : Int) ≤ MAX_CACHE_SIZE ∨
        (cleanupCache now s).currentCacheSize + (sz data : Int) ≤
          MAX_CACHE_SIZE) →
      now' - now ≤ CACHE_DURATION →
      (getFromCache key now' (addToCache sz key data now s)).1 = some data := by
  intro sz key data now now' s hadm hfresh
  unfold addToCache
  by_cases h1 : s.currentCacheSize + (sz data : Int) > MAX_CACHE_SIZE
  · rw [if_pos h1]
    have h2 : ¬((cleanupCache now s).currentCacheSize + (sz data : Int) >
        MAX_CACHE_SIZE) := by
      rcases hadm with ha | ha <;> omega
    rw [if_neg h2]
    simp only [getFromCache, mapLookup_mapSet_self,
      if_neg (by omega : ¬(now' - now > CACHE_DURATION))]
  · rw [if_neg h1]
    simp only [getFromCache, mapLookup_mapSet_self,
      if_neg (by omega : ¬(now' - now > CACHE_DURATION))]

/-- C5 amended witness: a small payload put into the empty cache is
returned by an immediate get. -/
theorem c5_roundtrip_amended_witness :
    (getFromCache "k" 5 (addToCache szSmall "k" respEmpty 0 emptyCacheSt)).1 =
      some respEmpty :=
  c5_roundtrip_amended szSmall "k" respEmpty 0 5 emptyCacheSt
    (Or.inl (by decide)) (by decide)

/-! ## Cleanup only removes entries -/

theorem mem_of_mem_mapDelete {κ α : Type} [DecidableEq κ]
    {m : List (κ × α)} {k : κ} {p : κ × α} (h : p ∈ mapDelete m k) :
    p ∈ m :=
  List.mem_of_mem_filter h

theorem mem_of_mem_evictOldest :
    ∀ (l : List (String × CacheEntry)) (s : CacheSt)
      (p : String × CacheEntry),
      p ∈ (evictOldest l s).cache → p ∈ s.cache := by
  intro l
  induction l with
  | nil => intro s p hp; exact hp
  | cons a rest ih =>
      obtain ⟨k, e⟩ := a
      intro s p hp
      by_cases hstop : s.currentCacheSize - (e.size : Int) ≤ EVICT_TARGET
      · rw [evictOldest, if_pos hstop] at hp
        exact mem_of_mem_mapDelete hp
      · rw [evictOldest, if_neg hstop] at hp
        exact mem_of_mem_mapDelete (ih _ p hp)

theorem mem_of_mem_purgeExpired {now : Int} {s : CacheSt}
    {p : String × CacheEntry} (h : p ∈ (purgeExpired now s).cache) :
    p ∈ s.cache :=
  List.mem_of_mem_filter h

theorem mem_of_mem_cleanupCache {now : Int} {s : CacheSt}
    {p : String × CacheEntry} (h : p ∈ (cleanupCache now s).cache) :
    p ∈ s.cache := by
  unfold cleanupCache at h
  by_cases hover : (purgeExpired now s).currentCacheSize > MAX_CACHE_SIZE
  · rw [if_pos hover] at h
    exact mem_of_mem_purgeExpired (mem_of_mem_evictOldest _ _ _ h)
  · rw [if_neg hover] at h
    exact mem_of_mem_purgeExpired h

theorem mapLookup_cleanupCache_none {now : Int} {s : CacheSt} {key : String}
    (h : mapLookup s.cache key = none) :
    mapLookup (cleanupCache now s).cache key = none := by
  rw [mapLookup_eq_none_iff] at h ⊢
  exact fun p hp => h p (mem_of_mem_cleanupCache hp)

/-- C3 amended: on put, if admitting the payload would exceed the
budget the cleanup pass runs, purging expired entries — but the
oldest-first eviction inside it fires only when the cache on its own
already exceeds the budget, so it cannot make room for the new payload.
The payload is admitted (stored with its timestamp and size) exactly
when the tracked size plus the payload's estimated size fits the budget
before or after that cleanup, and is skipped otherwise — in particular
whenever the payload alone is larger than the budget, but also for
smaller payloads that don't fit next to live entries (see the
counterexample). -/
theorem c3_admission_amended :
    ∀ (sz : EarthquakeResponse → Nat) (key : String)
      (data : EarthquakeResponse) (now : Int) (s : CacheSt),
      mapLookup s.cache key = none →
      (mapLookup (addToCache sz key data now s).cache key =
          some ⟨data, now, sz data⟩ ↔
        (s.currentCacheSize + (sz data : Int) ≤ MAX_CACHE_SIZE ∨
          (cleanupCache now s).currentCacheSize + (sz data : Int) ≤
            MAX_CACHE_SIZE)) ∧
      ((MAX_CACHE_SIZE < s.currentCacheSize + (sz data : Int) ∧
          MAX_CACHE_SIZE < (cleanupCache now s).currentCacheSize +
            (sz data : Int)) →
        addToCache sz key data now s = cleanupCache now s) := by
  intro sz key data now s hfresh
  unfold addToCache
  by_cases h1 : s.currentCacheSize + (sz data : Int) > MAX_CACHE_SIZE
  · rw [if_pos h1]
    by_cases h2 : (cleanupCache now s).currentCacheSize + (sz data : Int) >
        MAX_CACHE_SIZE
    · rw [if_pos h2]
      refine ⟨iff_of_false ?_ (by omega), fun _ => rfl⟩
      rw [mapLookup_cleanupCache_none hfresh]
      simp
    · rw [if_neg h2]
      refine ⟨iff_of_true ?_ (Or.inr (by omega)), fun hc => absurd hc.2 (by omega)⟩
      exact mapLookup_mapSet_self _ _ _
  · rw [if_neg h1]
    refine ⟨iff_of_true ?_ (Or.inl (by omega)), fun hc => absurd hc.1 (by omega)⟩
    exact mapLookup_mapSet_self _ _ _

/-- C3 amended witness: a small payload into the empty cache is
admitted and retrievable from the cache map with its size and
timestamp. -/
theorem c3_admission_amended_witness :
    mapLookup (addToCache szSmall "k" respEmpty 0 emptyCacheSt).cache "k" =
      some ⟨respEmpty, 0, szSmall respEmpty⟩ :=
  (c3_admission_amended szSmall "k" respEmpty 0 emptyCacheSt rfl).1.mpr
    (Or.inl (by decide))

/-- C8 amended: the outbound request includes the four bounding-box
query parameters exactly when all four bounding-box fields are present
AND truthy (non-zero) — JS truthiness, not mere presence, guards the
block, so a legitimate coordinate of 0 suppresses all four parameters;
the all-four-or-none shape itself does hold. -/
theorem c8_bbox_amended :
    ∀ filters : EarthquakeFilters,
      (mapLookup (buildRequestParams filters) "minlatitude").isSome =
          bboxTruthy filters ∧
        (mapLookup (buildRequestParams filters) "maxlatitude").isSome =
          bboxTruthy filters ∧
        (mapLookup (buildRequestParams filters) "minlongitude").isSome =
          bboxTruthy filters ∧
        (mapLookup (buildRequestParams filters) "maxlongitude").isSome =
          bboxTruthy filters := by
  intro f
  unfold buildRequestParams
  cases hmax : truthyRat f.maxMagnitude <;> cases hbox : bboxTruthy f <;>
    simp only [hmax, hbox, if_true, if_false, Bool.false_eq_true, ite_false,
      ite_true] <;>
    exact ⟨rfl, rfl, rfl, rfl⟩

/-! ## The strongest-earthquake reduce picks the last maximum -/

theorem strongestFold_concat (q : EarthquakeFeature)
    (l : List EarthquakeFeature) (x : EarthquakeFeature) :
    strongestFold q (l ++ [x]) =
      if (strongestFold q l).properties.mag > x.properties.mag then
        strongestFold q l
      else x := by
  unfold strongestFold
  rw [List.foldl_append]
  rfl

theorem strongestFold_spec (q : EarthquakeFeature)
    (l : List EarthquakeFeature) :
    ∃ l₁ l₂,
      q :: l = l₁ ++ strongestFold q l :: l₂ ∧
      (∀ r ∈ q :: l,
        r.properties.mag ≤ (strongestFold q l).properties.mag) ∧
      (∀ r ∈ l₂,
        r.properties.mag < (strongestFold q l).properties.mag) := by
  induction l using List.reverseRecOn with
  | nil =>
      refine ⟨[], [], rfl, ?_, by simp⟩
      intro r hr
      rw [List.mem_singleton] at hr
      subst hr
      exact le_refl _
  | append_singleton l x ih =>
      obtain ⟨l₁, l₂, heq, hle, hlt⟩ := ih
      rw [strongestFold_concat]
      by_cases hgt :
          (strongestFold q l).properties.mag > x.properties.mag
      · rw [if_pos hgt]
        refine ⟨l₁, l₂ ++ [x], ?_, ?_, ?_⟩
        · rw [← List.cons_append, heq, List.append_assoc]
          rfl
        · intro r hr
          rw [← List.cons_append, List.mem_append] at hr
          rcases hr with hr | hr
          · exact hle r hr
          · rw [List.mem_singleton] at hr
            subst hr
            exact le_of_lt hgt
        · intro r hr
          rw [List.mem_append] at hr
          rcases hr with hr | hr
          · exact hlt r hr
          · rw [List.mem_singleton] at hr
            subst hr
            exact hgt
      · rw [if_neg hgt]
        push_neg at hgt
        refine ⟨q :: l, [], by simp, ?_, by simp⟩
        intro r hr
        rw [← List.cons_append, List.mem_append] at hr
        rcases hr with hr | hr
        · exact le_trans (hle r hr) hgt
        · rw [List.mem_singleton] at hr
          subst hr
          exact le_refl _

/-- C1 amended: for every non-empty record list the summary's strongest
earthquake is a record of the list whose magnitude is greater than or
equal to every record's magnitude, and when several records share the
maximum it is the LAST such record in input order (every record after
it is strictly smaller): the reduce keeps the incumbent only on a
strict > comparison, so a tying later record replaces it. -/
theorem c1_strongest_amended :
    ∀ (filters : EarthquakeFilters) (q : EarthquakeFeature)
      (qs : List EarthquakeFeature),
      ∃ s l₁ l₂,
        (generateSummary (q :: qs) filters).strongestEarthquake = some s ∧
        q :: qs = l₁ ++ s :: l₂ ∧
        (∀ r ∈ q :: qs, r.properties.mag ≤ s.properties.mag) ∧
        (∀ r ∈ l₂, r.properties.mag < s.properties.mag) := by
  intro filters q qs
  obtain ⟨l₁, l₂, heq, hle, hlt⟩ := strongestFold_spec q qs
  exact ⟨strongestFold q qs, l₁, l₂, rfl, heq, hle, hlt⟩

/-! ## Histogram bucket counting -/

/-- How many of the five ranges accept a magnitude m. -/
def bucketHits (m : Rat) : Nat :=
  (magnitudeRanges.filter (fun r => inBucket r.1 r.2.1 m)).length

theorem bucketHits_of_nonneg (m : Rat) (h0 : 0 ≤ m) : bucketHits m = 1 := by
  rcases lt_or_le m 2 with h2 | h2
  · have n2 : ¬((2 : Rat) ≤ m) := by linarith
    have n4 : ¬((4 : Rat) ≤ m) := by linarith
    have n6 : ¬((6 : Rat) ≤ m) := by linarith
    have n8 : ¬((8 : Rat) ≤ m) := by linarith
    have b1 : inBucket 0 2 m = true := by norm_num [inBucket, h0, h2]
    have b2 : inBucket 2 4 m = false := by norm_num [inBucket, n2]
    have b3 : inBucket 4 6 m = false := by norm_num [inBucket, n4]
    have b4 : inBucket 6 8 m = false := by norm_num [inBucket, n6]
    have b5 : inBucket 8 10 m = false := by norm_num [inBucket, n8]
    simp [bucketHits, magnitudeRanges, b1, b2, b3, b4, b5]
  · rcases lt_or_le m 4 with h4 | h4
    · have nlt2 : ¬(m < 2) := by linarith
      have n4 : ¬((4 : Rat) ≤ m) := by linarith
      have n6 : ¬((6 : Rat) ≤ m) := by linarith
      have n8 : ¬((8 : Rat) ≤ m) := by linarith
      have b1 : inBucket 0 2 m = false := by norm_num [inBucket, h0, nlt2]
      have b2 : inBucket 2 4 m = true := by norm_num [inBucket, h2, h4]
      have b3 : inBucket 4 6 m = false := by norm_num [inBucket, n4]
      have b4 : inBucket 6 8 m = false := by norm_num [inBucket, n6]
      have b5 : inBucket 8 10 m = false := by norm_num [inBucket, n8]
      simp [bucketHits, magnitudeRanges, b1, b2, b3, b4, b5]
    · rcases lt_or_le m 6 with h6 | h6
      · have nlt2 : ¬(m < 2) := by linarith
        have nlt4 : ¬(m < 4) := by linarith
        have n6 : ¬((6 : Rat) ≤ m) := by linarith
        have n8 : ¬((8 : Rat) ≤ m) := by linarith
        have b1 : inBucket 0 2 m = false := by norm_num [inBucket, h0, nlt2]
        have b2 : inBucket 2 4 m = false := by norm_num [inBucket, nlt4]
        have b3 : inBucket 4 6 m = true := by norm_num [inBucket, h4, h6]
        have b4 : inBucket 6 8 m = false := by norm_num [inBucket, n6]
        have b5 : inBucket 8 10 m = false := by norm_num [inBucket, n8]
        simp [bucketHits, magnitudeRanges, b1, b2, b3, b4, b5]
      · rcases lt_or_le m 8 with h8 | h8
        · have nlt2 : ¬(m < 2) := by linarith
          have nlt4 : ¬(m < 4) := by linarith
          have nlt6 : ¬(m < 6) := by linarith
          have n8 : ¬((8 : Rat) ≤ m) := by linarith
          have b1 : inBucket 0 2 m = false := by norm_num [inBucket, h0, nlt2]
          have b2 : inBucket 2 4 m = false := by norm_num [inBucket, nlt4]
          have b3 : inBucket 4 6 m = false := by norm_num [inBucket, nlt6]
          have b4 : inBucket 6 8 m = true := by norm_num [inBucket, h6, h8]
          have b5 : inBucket 8 10 m = false := by norm_num [inBucket, n8]
          simp [bucketHits, magnitudeRanges, b1, b2, b3, b4, b5]
        · have nlt2 : ¬(m < 2) := by linarith
          have nlt4 : ¬(m < 4) := by linarith
          have nlt6 : ¬(m < 6) := by linarith
          have nlt8 : ¬(m < 8) := by linarith
          have b1 : inBucket 0 2 m = false := by norm_num [inBucket, h0, nlt2]
          have b2 : inBucket 2 4 m = false := by norm_num [inBucket, nlt4]
          have b3 : inBucket 4 6 m = false := by norm_num [inBucket, nlt6]
          have b4 : inBucket 6 8 m = false := by norm_num [inBucket, nlt8]
          have b5 : inBucket 8 10 m = true := by norm_num [inBucket, h8]
          simp [bucketHits, magnitudeRanges, b1, b2, b3, b4, b5]

theorem bucketHits_of_neg (m : Rat) (h0 : m < 0) : bucketHits m = 0 := by
  have n0 : ¬((0 : Rat) ≤ m) := by linarith
  have n2 : ¬((2 : Rat) ≤ m) := by linarith
  have n4 : ¬((4 : Rat) ≤ m) := by linarith
  have n6 : ¬((6 : Rat) ≤ m) := by linarith
  have n8 : ¬((8 : Rat) ≤ m) := by linarith
  have b1 : inBucket 0 2 m = false := by norm_num [inBucket, n0]
  have b2 : inBucket 2 4 m = false := by norm_num [inBucket, n2]
  have b3 : inBucket 4 6 m = false := by norm_num [inBucket, n4]
  have b4 : inBucket 6 8 m = false := by norm_num [inBucket, n6]
  have b5 : inBucket 8 10 m = false := by norm_num [inBucket, n8]
  simp [bucketHits, magnitudeRanges, b1, b2, b3, b4, b5]

/-- The sum of the five histogram counts. -/
def distSum (qs : List EarthquakeFeature) : Nat :=
  ((magnitudeDistribution qs).map Prod.snd).sum

theorem distSum_cons (q : EarthquakeFeature) (qs : List EarthquakeFeature) :
    distSum (q :: qs) = bucketHits q.properties.mag + distSum qs := by
  simp only [distSum, magnitudeDistribution, bucketHits, magnitudeRanges,
    List.map_cons, List.map_nil, List.filter_cons, List.filter_nil,
    List.sum_cons, List.sum_nil]
  split_ifs <;> simp <;> omega

theorem distSum_eq_count (qs : List EarthquakeFeature) :
    distSum qs =
      (qs.filter (fun r => decide (0 ≤ r.properties.mag))).length := by
  induction qs with
  | nil => rfl
  | cons q qs ih =>
      rw [distSum_cons, ih, List.filter_cons]
      by_cases h : 0 ≤ q.properties.mag
      · rw [bucketHits_of_nonneg _ h]
        simp [h]
        omega
      · rw [bucketHits_of_neg _ (not_le.1 h)]
        simp [h]

/-- C2 amended: every record with nonnegative magnitude falls into
exactly one of the five buckets, a record with negative magnitude falls
into none of them, and consequently the sum of the five bucket counts
equals the number of records with nonnegative magnitude (equal to the
total count only when no magnitude is negative). -/
theorem c2_histogram_amended :
    ∀ (filters : EarthquakeFilters) (q : EarthquakeFeature)
      (qs : List EarthquakeFeature),
      (∀ r ∈ q :: qs, 0 ≤ r.properties.mag →
        bucketHits r.properties.mag = 1) ∧
      (∀ r ∈ q :: qs, r.properties.mag < 0 →
        bucketHits r.properties.mag = 0) ∧
      (((generateSummary (q :: qs) filters).magnitudeDistribution).map
          Prod.snd).sum =
        ((q :: qs).filter (fun r => decide (0 ≤ r.properties.mag))).length := by
  intro filters q qs
  refine ⟨fun r _ h => bucketHits_of_nonneg _ h,
    fun r _ h => bucketHits_of_neg _ h, ?_⟩
  exact distSum_eq_count (q :: qs)

/-! ## Per-day frequency counting -/

/-- Sum of the stored counts of a date map. -/
def sumVals {κ : Type} (m : List (κ × Nat)) : Nat :=
  (m.map Prod.snd).sum

theorem mem_mapSet {κ α : Type} [DecidableEq κ] {m : List (κ × α)}
    {k : κ} {v : α} {p : κ × α} (h : p ∈ mapSet m k v) :
    p ∈ m ∨ p = (k, v) := by
  induction m with
  | nil =>
      simp [mapSet] at h
      exact Or.inr h
  | cons a rest ih =>
      by_cases hk : a.1 = k
      · simp only [mapSet, if_pos hk] at h
        rcases List.mem_cons.1 h with h | h
        · exact Or.inr h
        · exact Or.inl (List.mem_cons_of_mem _ h)
      · simp only [mapSet, if_neg hk] at h
        rcases List.mem_cons.1 h with h | h
        · exact Or.inl (h ▸ List.mem_cons_self _ _)
        · rcases ih h with h | h
          · exact Or.inl (List.mem_cons_of_mem _ h)
          · exact Or.inr h

theorem sumVals_incr {κ : Type} [DecidableEq κ]
    (m : List (κ × Nat)) (k : κ) :
    sumVals (mapSet m k ((mapLookup m k).getD 0 + 1)) = sumVals m + 1 := by
  induction m with
  | nil => rfl
  | cons p rest ih =>
      obtain ⟨pk, pv⟩ := p
      by_cases h : pk = k
      · simp only [mapSet, mapLookup, if_pos h, sumVals, List.map_cons,
          List.sum_cons, Option.getD_some]
        omega
      · simp only [mapSet, mapLookup, if_neg h, sumVals, List.map_cons,
          List.sum_cons] at ih ⊢
        omega

theorem sumVals_seed_zero (ds : List Int) :
    ∀ m : List (Int × Nat), (∀ p ∈ m, p.2 = 0) →
      ∀ p ∈ ds.foldl (fun acc d => mapSet acc d 0) m, p.2 = 0 := by
  induction ds with
  | nil =>
      intro m hm
      simpa using hm
  | cons d ds ih =>
      intro m hm
      simp only [List.foldl_cons]
      apply ih
      intro p hp
      rcases mem_mapSet hp with h | h
      · exact hm p h
      · rw [h]

theorem sumVals_eq_zero {κ : Type} (m : List (κ × Nat))
    (h : ∀ p ∈ m, p.2 = 0) : sumVals m = 0 := by
  unfold sumVals
  apply List.sum_eq_zero
  intro x hx
  rcases List.mem_map.1 hx with ⟨p, hp, rfl⟩
  exact h p hp

theorem sumVals_countFold (qs : List EarthquakeFeature) :
    ∀ m : List (Int × Nat),
      sumVals (qs.foldl
        (fun m eq =>
          mapSet m (dayOfTime eq.properties.time)
            ((mapLookup m (dayOfTime eq.properties.time)).getD 0 + 1)) m) =
      sumVals m + qs.length := by
  induction qs with
  | nil =>
      intro m
      simp
  | cons q qs ih =>
      intro m
      simp only [List.foldl_cons]
      rw [ih, sumVals_incr, List.length_cons]
      omega

/-- C6: for every filter and non-empty record list, the counts of the
per-day frequency series sum to the record count: the sampled seed days
all start at zero and each record increments exactly one bucket — the
one keyed by its own day, created on demand when it was not pre-seeded;
this holds in particular when the span exceeds 90 days and the seeding
samples every ceil(span/90)-th day. -/
theorem c6_frequency_sum :
    ∀ (filters : EarthquakeFilters) (q : EarthquakeFeature)
      (qs : List EarthquakeFeature),
      (((generateSummary (q :: qs) filters).frequencyPerDay).map
          Prod.snd).sum = (q :: qs).length := by
  intro f q qs
  show sumVals (frequencyPerDay f (q :: qs)) = (q :: qs).length
  show sumVals ((q :: qs).foldl
      (fun m eq =>
        mapSet m (dayOfTime eq.properties.time)
          ((mapLookup m (dayOfTime eq.properties.time)).getD 0 + 1))
      ((seedDays f.startTime (f.endTime - f.startTime)
          (if f.endTime - f.startTime > 90 then
            ((f.endTime - f.startTime).toNat + 89) / 90
          else 1)).foldl (fun m d => mapSet m d 0) [])) = (q :: qs).length
  rw [sumVals_countFold]
  rw [sumVals_eq_zero _ (sumVals_seed_zero _ [] (by simp))]
  omega

/-! ## Cancellation discards late responses -/

theorem svcOps_gen_preserved (sz : EarthquakeResponse → Nat)
    (serialize : EarthquakeFilters → String) (g : Nat) :
    ∀ (ops : List SvcOp) (s : ServiceState),
      g < s.nextGen → s.activeGen ≠ some g →
      g < (applySvcOps sz serialize ops s).nextGen ∧
        (applySvcOps sz serialize ops s).activeGen ≠ some g := by
  intro ops
  induction ops with
  | nil => exact fun s h1 h2 => ⟨h1, h2⟩
  | cons op ops ih =>
      intro s h1 h2
      have hstep : g < (applySvcOp sz serialize op s).nextGen ∧
          (applySvcOp sz serialize op s).activeGen ≠ some g := by
        cases op with
        | fetchOp filters now =>
            simp only [applySvcOp, fetchEarthquakes, cancelCurrentRequest]
            rcases hres : getFromCache (serialize filters) now s.cacheSt with
              ⟨ores, c'⟩
            cases ores with
            | none =>
                simp only
                refine ⟨by omega, fun hc => ?_⟩
                have := Option.some.inj hc
                omega
            | some resp =>
                simp only
                exact ⟨h1, by simp⟩
        | cancelOp =>
            simp only [applySvcOp, cancelCurrentRequest]
            exact ⟨h1, by simp⟩
        | responseOp g' filters resp now =>
            simp only [applySvcOp, responseArrives]
            by_cases hact : s.activeGen = some g'
            · rw [if_pos hact]
              exact ⟨h1, by simp⟩
            · rw [if_neg hact]
              exact ⟨h1, h2⟩
      exact ih _ hstep.1 hstep.2

/-- C7: a fetch of generation g is cancelled before its network call
resolves; whatever sequence of further service events happens, when the
response for generation g finally arrives it is not published: the
records channel, the summary channel and the cache are all unchanged
(takeUntil(cancelSubject) completed that subscription, embedded as the
generation check). -/
theorem c7_cancelled_response_not_published :
    ∀ (sz : EarthquakeResponse → Nat)
      (serialize : EarthquakeFilters → String) (s : ServiceState) (g : Nat)
      (ops : List SvcOp) (filters : EarthquakeFilters)
      (resp : EarthquakeResponse) (now : Int),
      g < s.nextGen →
      (responseArrives sz serialize g filters resp now
          (applySvcOps sz serialize ops (cancelCurrentRequest s))).earthquakes =
        (applySvcOps sz serialize ops (cancelCurrentRequest s)).earthquakes ∧
      (responseArrives sz serialize g filters resp now
          (applySvcOps sz serialize ops (cancelCurrentRequest s))).summary =
        (applySvcOps sz serialize ops (cancelCurrentRequest s)).summary ∧
      (responseArrives sz serialize g filters resp now
          (applySvcOps sz serialize ops (cancelCurrentRequest s))).cacheSt =
        (applySvcOps sz serialize ops (cancelCurrentRequest s)).cacheSt := by
  intro sz serialize s g ops filters resp now hg
  have h := svcOps_gen_preserved sz serialize g ops (cancelCurrentRequest s)
    (by simpa [cancelCurrentRequest] using hg) (by simp [cancelCurrentRequest])
  unfold responseArrives
  rw [if_neg h.2]
  exact ⟨rfl, rfl, rfl⟩

/-- A constant payload-size estimate. -/
def szConst : EarthquakeResponse → Nat := fun _ => 100

/-- A constant cache-key serialization. -/
def serializeConst : EarthquakeFilters → String := fun _ => "key"

/-- A service state with one in-flight request of generation 0. -/
def svcInFlight : ServiceState := ⟨1, some 0, true, [], none, emptyCacheSt⟩

/-- A one-event continuation: a new fetch is issued after the
cancellation. -/
def opsAfterCancel : List SvcOp := [SvcOp.fetchOp filt0 0]

/-- C7 witness: the concrete scenario — request 0 in flight, cancelled,
a new fetch issued, then the stale response for request 0 arrives and
changes nothing. -/
theorem c7_cancelled_response_not_published_witness :
    (responseArrives szConst serializeConst 0 filt0 respEmpty 50
        (applySvcOps szConst serializeConst opsAfterCancel
          (cancelCurrentRequest svcInFlight))).earthquakes =
      (applySvcOps szConst serializeConst opsAfterCancel
        (cancelCurrentRequest svcInFlight)).earthquakes ∧
    (responseArrives szConst serializeConst 0 filt0 respEmpty 50
        (applySvcOps szConst serializeConst opsAfterCancel
          (cancelCurrentRequest svcInFlight))).summary =
      (applySvcOps szConst serializeConst opsAfterCancel
        (cancelCurrentRequest svcInFlight)).summary ∧
    (responseArrives szConst serializeConst 0 filt0 respEmpty 50
        (applySvcOps szConst serializeConst opsAfterCancel
          (cancelCurrentRequest svcInFlight))).cacheSt =
      (applySvcOps szConst serializeConst opsAfterCancel
        (cancelCurrentRequest svcInFlight)).cacheSt :=
  c7_cancelled_response_not_published szConst serializeConst svcInFlight 0
    opsAfterCancel filt0 respEmpty 50 (by decide)

/-! ## Cache bookkeeping invariant -/

/-- The keys of the cache map. -/
def keysOf (m : List (String × CacheEntry)) : List String :=
  m.map Prod.fst

/-- The total of the size fields of the stored entries. -/
def sumSizes (m : List (String × CacheEntry)) : Nat :=
  (m.map (fun p => p.2.size)).sum

/-- Well-formedness of the cache bookkeeping: currentCacheSize tracks
the sum of the stored sizes, and the map's keys are unique (as they are
in a JS Map). -/
def CacheWF (s : CacheSt) : Prop :=
  s.currentCacheSize = (sumSizes s.cache : Int) ∧ (keysOf s.cache).Nodup

/-- The full invariant of claim C10: well-formed bookkeeping and a
total at most MAX_CACHE_SIZE. -/
def CacheBounded (s : CacheSt) : Prop :=
  CacheWF s ∧ s.currentCacheSize ≤ MAX_CACHE_SIZE

theorem sumSizes_int (m : List (String × CacheEntry)) :
    (m.map (fun p => ((p.2.size : Nat) : Int))).sum = (sumSizes m : Int) := by
  induction m with
  | nil => rfl
  | cons a rest ih =>
      simp only [sumSizes, List.map_cons, List.sum_cons] at ih ⊢
      rw [ih]
      push_cast
      ring

theorem sumSizes_purge_split (now : Int) (m : List (String × CacheEntry)) :
    sumSizes (m.filter (fun p => ! isExpired now p.2)) +
      sumSizes (m.filter (fun p => isExpired now p.2)) = sumSizes m := by
  induction m with
  | nil => rfl
  | cons a rest ih =>
      by_cases h : isExpired now a.2 = true <;>
        simp [List.filter_cons, h, sumSizes] at ih ⊢ <;> omega

theorem keysOf_filter_nodup (pred : String × CacheEntry → Bool)
    {m : List (String × CacheEntry)} (h : (keysOf m).Nodup) :
    (keysOf (m.filter pred)).Nodup :=
  ((List.filter_sublist m).map Prod.fst).nodup h

theorem not_mem_keysOf_iff (m : List (String × CacheEntry)) (k : String) :
    k ∉ keysOf m ↔ ∀ p ∈ m, p.1 ≠ k := by
  unfold keysOf
  constructor
  · intro h p hp hpk
    exact h (List.mem_map.mpr ⟨p, hp, hpk⟩)
  · intro h hk
    rcases List.mem_map.1 hk with ⟨p, hp, hpk⟩
    exact h p hp hpk

theorem mapDelete_eq_self {m : List (String × CacheEntry)} {k : String}
    (h : ∀ p ∈ m, p.1 ≠ k) : mapDelete m k = m := by
  apply List.filter_eq_self.mpr
  intro p hp
  simp [h p hp]

theorem mem_mapDelete_of_ne {m : List (String × CacheEntry)} {k : String}
    {p : String × CacheEntry} (hp : p ∈ m) (hne : p.1 ≠ k) :
    p ∈ mapDelete m k :=
  List.mem_filter.mpr ⟨hp, by simp [hne]⟩

theorem sumSizes_mapDelete {m : List (String × CacheEntry)} {k : String}
    {e : CacheEntry} (hnd : (keysOf m).Nodup) (hke : (k, e) ∈ m) :
    sumSizes (mapDelete m k) + e.size = sumSizes m := by
  induction m with
  | nil => simp at hke
  | cons a rest ih =>
      obtain ⟨ak, av⟩ := a
      rw [keysOf, List.map_cons, List.nodup_cons] at hnd
      by_cases hk : ak = k
      · subst hk
        have hrest : ∀ p ∈ rest, p.1 ≠ ak := by
          intro p hp hpk
          exact hnd.1 (List.mem_map.mpr ⟨p, hp, hpk⟩)
        have he : e = av := by
          rcases List.mem_cons.1 hke with hh | hh
          · exact congrArg Prod.snd hh
          · exact absurd rfl (hrest _ hh)
        subst he
        have h2 : mapDelete rest ak = rest := mapDelete_eq_self hrest
        unfold mapDelete at h2 ⊢
        rw [List.filter_cons,
          if_neg (by simp : ¬(decide ((ak, e).1 ≠ ak) = true)), h2]
        simp only [sumSizes, List.map_cons, List.sum_cons]
        omega
      · have hh : (k, e) ∈ rest := by
          rcases List.mem_cons.1 hke with hh | hh
          · exact absurd (congrArg Prod.fst hh).symm hk
          · exact hh
        have hrec := ih hnd.2 hh
        unfold mapDelete at hrec ⊢
        rw [List.filter_cons]
        have hcond : decide ((ak, av).1 ≠ k) = true := by simp [hk]
        rw [hcond, if_pos rfl]
        simp only [sumSizes, List.map_cons, List.sum_cons] at hrec ⊢
        omega

theorem evictOldest_inv :
    ∀ (l : List (String × CacheEntry)) (s : CacheSt),
      CacheWF s → (∀ p ∈ l, p ∈ s.cache) → (l.map Prod.fst).Nodup →
      CacheWF (evictOldest l s) ∧
        (evictOldest l s).currentCacheSize ≤ s.currentCacheSize ∧
        ∀ p ∈ (evictOldest l s).cache, p ∈ s.cache := by
  intro l
  induction l with
  | nil => exact fun s hwf _ _ => ⟨hwf, le_refl _, fun p hp => hp⟩
  | cons a rest ih =>
      obtain ⟨k, e⟩ := a
      intro s hwf hmem hnd
      rw [List.map_cons, List.nodup_cons] at hnd
      have hke : (k, e) ∈ s.cache := hmem _ (List.mem_cons_self _ _)
      have hsum : sumSizes (mapDelete s.cache k) + e.size = sumSizes s.cache :=
        sumSizes_mapDelete hwf.2 hke
      have hwf' : CacheWF ⟨mapDelete s.cache k,
          s.currentCacheSize - (e.size : Int)⟩ := by
        refine ⟨?_, keysOf_filter_nodup _ hwf.2⟩
        have := hwf.1
        simp only at this ⊢
        omega
      have hmem' : ∀ p ∈ rest,
          p ∈ (⟨mapDelete s.cache k, s.currentCacheSize - (e.size : Int)⟩ :
            CacheSt).cache := by
        intro p hp
        have hne : p.1 ≠ k := by
          intro hpk
          exact hnd.1 (hpk ▸ List.mem_map.mpr ⟨p, hp, rfl⟩)
        exact mem_mapDelete_of_ne (hmem _ (List.mem_cons_of_mem _ hp)) hne
      rw [evictOldest]
      by_cases hstop : s.currentCacheSize - (e.size : Int) ≤ EVICT_TARGET
      · rw [if_pos hstop]
        refine ⟨hwf', ?_, fun p hp => mem_of_mem_mapDelete hp⟩
        show s.currentCacheSize - (e.size : Int) ≤ s.currentCacheSize
        omega
      · rw [if_neg hstop]
        obtain ⟨hw, hle, hsub⟩ := ih _ hwf' hmem' hnd.2
        refine ⟨hw, le_trans hle ?_,
          fun p hp => mem_of_mem_mapDelete (hsub p hp)⟩
        show s.currentCacheSize - (e.size : Int) ≤ s.currentCacheSize
        omega

theorem purgeExpired_inv (now : Int) (s : CacheSt) (hwf : CacheWF s) :
    CacheWF (purgeExpired now s) ∧
      (purgeExpired now s).currentCacheSize ≤ s.currentCacheSize ∧
      ∀ p ∈ (purgeExpired now s).cache, p ∈ s.cache := by
  have hsplit := sumSizes_purge_split now s.cache
  have hcast := sumSizes_int (s.cache.filter (fun p => isExpired now p.2))
  refine ⟨⟨?_, keysOf_filter_nodup _ hwf.2⟩, ?_, ?_⟩
  · show s.currentCacheSize -
        ((s.cache.filter (fun p => isExpired now p.2)).map
          (fun p => (p.2.size : Int))).sum =
      (sumSizes (s.cache.filter (fun p => ! isExpired now p.2)) : Int)
    rw [hcast, hwf.1]
    omega
  · show s.currentCacheSize -
        ((s.cache.filter (fun p => isExpired now p.2)).map
          (fun p => (p.2.size : Int))).sum ≤ s.currentCacheSize
    rw [hcast]
    omega
  · exact fun p hp => List.mem_of_mem_filter hp

theorem cleanupCache_inv (now : Int) (s : CacheSt) (hwf : CacheWF s) :
    CacheWF (cleanupCache now s) ∧
      (cleanupCache now s).currentCacheSize ≤ s.currentCacheSize ∧
      ∀ p ∈ (cleanupCache now s).cache, p ∈ s.cache := by
  obtain ⟨hwf1, hle1, hsub1⟩ := purgeExpired_inv now s hwf
  rw [cleanupCache]
  by_cases hover : (purgeExpired now s).currentCacheSize > MAX_CACHE_SIZE
  · rw [if_pos hover]
    have hperm :=
      (purgeExpired now s).cache.perm_insertionSort timestampLE
    have hmem : ∀ p ∈ (purgeExpired now s).cache.insertionSort timestampLE,
        p ∈ (purgeExpired now s).cache := fun p hp => hperm.mem_iff.1 hp
    have hnd :
        (((purgeExpired now s).cache.insertionSort timestampLE).map
          Prod.fst).Nodup :=
      (hperm.map Prod.fst).nodup_iff.2 hwf1.2
    obtain ⟨hw, hle, hsub⟩ := evictOldest_inv _ _ hwf1 hmem hnd
    exact ⟨hw, le_trans hle hle1, fun p hp => hsub1 _ (hsub p hp)⟩
  · rw [if_neg hover]
    exact ⟨hwf1, hle1, hsub1⟩

theorem getFromCache_inv (key : String) (now : Int) (s : CacheSt)
    (h : CacheBounded s) : CacheBounded (getFromCache key now s).2 := by
  obtain ⟨⟨hsz, hnd⟩, hmax⟩ := h
  cases hlk : mapLookup s.cache key with
  | none =>
      simp only [getFromCache, hlk]
      exact ⟨⟨hsz, hnd⟩, hmax⟩
  | some c =>
      by_cases hexp : now - c.timestamp > CACHE_DURATION
      · simp only [getFromCache, hlk, if_pos hexp]
        have hke : (key, c) ∈ s.cache := mapLookup_mem hlk
        have hsum := sumSizes_mapDelete hnd hke
        refine ⟨⟨?_, keysOf_filter_nodup _ hnd⟩, ?_⟩
        · show s.currentCacheSize - (c.size : Int) =
            (sumSizes (mapDelete s.cache key) : Int)
          omega
        · show s.currentCacheSize - (c.size : Int) ≤ MAX_CACHE_SIZE
          omega
      · simp only [getFromCache, hlk, if_neg hexp]
        exact ⟨⟨hsz, hnd⟩, hmax⟩

theorem sumSizes_append_single (m : List (String × CacheEntry))
    (k : String) (e : CacheEntry) :
    sumSizes (m ++ [(k, e)]) = sumSizes m + e.size := by
  simp [sumSizes]

theorem keysOf_append_nodup {m : List (String × CacheEntry)} {k : String}
    (e : CacheEntry) (hnd : (keysOf m).Nodup)
    (hfresh : mapLookup m k = none) :
    (keysOf (m ++ [(k, e)])).Nodup := by
  unfold keysOf
  rw [List.map_append]
  apply List.Nodup.append hnd (List.nodup_singleton k)
  intro a ha hb
  rw [List.mem_singleton] at hb
  subst hb
  rcases List.mem_map.1 ha with ⟨p, hp, hpk⟩
  exact (mapLookup_eq_none_iff m a).1 hfresh p hp hpk

theorem store_wf {s : CacheSt} {key : String} (entry : CacheEntry)
    (hwf : CacheWF s) (hfresh : mapLookup s.cache key = none) :
    CacheWF ⟨mapSet s.cache key entry,
      s.currentCacheSize + (entry.size : Int)⟩ := by
  rw [mapSet_of_lookup_none entry hfresh]
  refine ⟨?_, keysOf_append_nodup entry hwf.2 hfresh⟩
  show s.currentCacheSize + (entry.size : Int) =
    (sumSizes (s.cache ++ [(key, entry)]) : Int)
  rw [sumSizes_append_single]
  have := hwf.1
  push_cast
  omega

theorem addToCache_inv (sz : EarthquakeResponse → Nat) (key : String)
    (data : EarthquakeResponse) (now : Int) (s : CacheSt)
    (h : CacheBounded s) (hfresh : mapLookup s.cache key = none) :
    CacheBounded (addToCache sz key data now s) := by
  obtain ⟨hwf, hmax⟩ := h
  unfold addToCache
  by_cases h1 : s.currentCacheSize + (sz data : Int) > MAX_CACHE_SIZE
  · rw [if_pos h1]
    obtain ⟨hwfc, hlec, hsubc⟩ := cleanupCache_inv now s hwf
    by_cases h2 : (cleanupCache now s).currentCacheSize + (sz data : Int) >
        MAX_CACHE_SIZE
    · rw [if_pos h2]
      exact ⟨hwfc, le_trans hlec hmax⟩
    · rw [if_neg h2]
      have hfresh' : mapLookup (cleanupCache now s).cache key = none :=
        mapLookup_cleanupCache_none hfresh
      refine ⟨store_wf _ hwfc hfresh', ?_⟩
      show (cleanupCache now s).currentCacheSize + ((sz data : Nat) : Int) ≤
        MAX_CACHE_SIZE
      omega
  · rw [if_neg h1]
    refine ⟨store_wf _ hwf hfresh, ?_⟩
    show s.currentCacheSize + ((sz data : Nat) : Int) ≤ MAX_CACHE_SIZE
    omega

/-- The cache operations of the service: addToCache (only reached with
a key not currently cached, since fetchEarthquakes tries getFromCache
first), getFromCache, and the periodic cleanupCache sweep. -/
inductive CacheOp where
  | addOp (key : String) (data : EarthquakeResponse) (now : Int)
  | getOp (key : String) (now : Int)
  | cleanupOp (now : Int)
  deriving Repr

/-- Interpretation of one cache operation on the cache state. -/
def applyCacheOp (sz : EarthquakeResponse → Nat) :
    CacheOp → CacheSt → CacheSt
  | .addOp key data now, s => addToCache sz key data now s
  | .getOp key now, s => (getFromCache key now s).2
  | .cleanupOp now, s => cleanupCache now s

/-- Interpretation of a sequence of cache operations. -/
def runCacheOps (sz : EarthquakeResponse → Nat) (ops : List CacheOp)
    (s : CacheSt) : CacheSt :=
  ops.foldl (fun st op => applyCacheOp sz op st) s

/-- Checks that along the run every addToCache is called with a key not
currently present in the cache. -/
def freshAdds (sz : EarthquakeResponse → Nat) :
    List CacheOp → CacheSt → Bool
  | [], _ => true
  | .addOp key data now :: ops, s =>
      (mapLookup s.cache key).isNone &&
        freshAdds sz ops (applyCacheOp sz (.addOp key data now) s)
  | .getOp key now :: ops, s =>
      freshAdds sz ops (applyCacheOp sz (.getOp key now) s)
  | .cleanupOp now :: ops, s =>
      freshAdds sz ops (applyCacheOp sz (.cleanupOp now) s)

theorem runCacheOps_inv (sz : EarthquakeResponse → Nat) :
    ∀ (ops : List CacheOp) (s : CacheSt),
      CacheBounded s → freshAdds sz ops s = true →
      CacheBounded (runCacheOps sz ops s) := by
  intro ops
  induction ops with
  | nil => exact fun s h _ => h
  | cons op ops ih =>
      intro s h hfresh
      cases op with
      | addOp key data now =>
          rw [freshAdds, Bool.and_eq_true] at hfresh
          exact ih _
            (addToCache_inv sz key data now s h
              (Option.isNone_iff_eq_none.1 hfresh.1)) hfresh.2
      | getOp key now =>
          rw [freshAdds] at hfresh
          exact ih _ (getFromCache_inv key now s h) hfresh
      | cleanupOp now =>
          rw [freshAdds] at hfresh
          have hc := cleanupCache_inv now s h.1
          exact ih _ ⟨hc.1, le_trans hc.2.1 h.2⟩ hfresh

/-- C10: starting from the empty cache, after every sequence of
addToCache (each with a key not currently cached), getFromCache and
cleanupCache operations, the tracked currentCacheSize equals the sum of
the size fields of the entries in the cache map, and it never exceeds
MAX_CACHE_SIZE — in particular immediately after any addToCache
returns. -/
theorem c10_cache_size_invariant :
    ∀ (sz : EarthquakeResponse → Nat) (ops : List CacheOp),
      freshAdds sz ops emptyCacheSt = true →
      (runCacheOps sz ops emptyCacheSt).currentCacheSize =
          (sumSizes (runCacheOps sz ops emptyCacheSt).cache : Int) ∧
        (runCacheOps sz ops emptyCacheSt).currentCacheSize ≤
          MAX_CACHE_SIZE := by
  intro sz ops hfresh
  have h0 : CacheBounded emptyCacheSt := by
    refine ⟨⟨rfl, List.nodup_nil⟩, by decide⟩
  have h := runCacheOps_inv sz ops emptyCacheSt h0 hfresh
  exact ⟨h.1.1, h.2⟩

/-- A second small payload. -/
def respOne : EarthquakeResponse := ⟨[recFirstMax]⟩

/-- A concrete operation sequence: two fresh adds around a get and a
sweep. -/
def opsConcrete : List CacheOp :=
  [CacheOp.addOp "k1" respEmpty 0, CacheOp.getOp "k1" 5,
    CacheOp.cleanupOp 10, CacheOp.addOp "k2" respOne 20]

/-- C10 witness: the invariant instantiated on the concrete operation
sequence. -/
theorem c10_cache_size_invariant_witness :
    (runCacheOps szConst opsConcrete emptyCacheSt).currentCacheSize =
        (sumSizes (runCacheOps szConst opsConcrete emptyCacheSt).cache :
          Int) ∧
      (runCacheOps szConst opsConcrete emptyCacheSt).currentCacheSize ≤
        MAX_CACHE_SIZE :=
  c10_cache_size_invariant szConst opsConcrete (by decide)

end EarthquakeApp
